import Mathlib

/-!
Verification of the DealQ underwriting pipeline core against its
specification.  Each Python function relevant to the checked claims is
shallowly embedded as an executable Lean definition; machine integers are
`Int`/`Nat` (Python ints are unbounded), Python `None`/strings/ints are a
scalar value type, dictionaries observed only through `get` are embedded as
functions, and fallible code returns `Option`/`Except`.
-/

/-- A scalar Python value as it appears in the JSON payloads handled by the
pipeline: `None`, a string, or an (unbounded) integer. -/
inductive PyVal where
  | none
  | str (s : String)
  | int (n : Int)
deriving DecidableEq

/-- Python `str(v)` on a scalar value. -/
def pyStr : PyVal → String
  | PyVal.none => "None"
  | PyVal.str s => s
  | PyVal.int n => toString n

/-- Python `s.strip()` on a character list: drop whitespace from both ends. -/
def stripChars (l : List Char) : List Char :=
  ((l.dropWhile Char.isWhitespace).reverse.dropWhile Char.isWhitespace).reverse

/-- Python `s.strip()`. -/
def pyStrip (s : String) : String :=
  (stripChars s.toList).asString

/-- Value of a run of decimal digits. -/
def digitsToNat (ds : List Char) : Nat :=
  ds.foldl (fun a c => a * 10 + (c.toNat - Char.toNat '0')) 0

/-- Python `int(float(s))` on a string: parse an optional sign, an integer
part and an optional fractional part (whitespace is stripped, as `float`
does), then truncate toward zero, i.e. drop the fraction and keep the signed
integer part.  Returns `none` when `float(s)` would raise `ValueError`.
(Exponent notation such as `"1e3"` is treated as unparseable here; the
pipeline's payloads carry plain decimal strings.) -/
def parseFloatTrunc (s : String) : Option Int :=
  let t := stripChars s.toList
  let sgn : Int := match t with
    | '-' :: _ => -1
    | _ => 1
  let t2 := match t with
    | '-' :: r => r
    | '+' :: r => r
    | _ => t
  let intPart := t2.takeWhile Char.isDigit
  let rest := t2.drop intPart.length
  match rest with
  | [] => if intPart = [] then Option.none else some (sgn * (digitsToNat intPart : Int))
  | '.' :: frac =>
    if frac.all Char.isDigit ∧ (intPart ≠ [] ∨ frac ≠ []) then
      some (sgn * (digitsToNat intPart : Int))
    else Option.none
  | _ => Option.none

/-- Python `int(float(v))` on a scalar value: an int is returned unchanged
(`float` then `int` round-trips it), a string is parsed, `None` fails with
`TypeError`. -/
def pyToIntFloat : PyVal → Option Int
  | PyVal.int n => some n
  | PyVal.str s => parseFloatTrunc s
  | PyVal.none => Option.none

/-! ## T12 structuring: `structuring/t12_utils.py`, `match_categories_with_amounts` -/

/-- The `category_lookup` dictionary built by `match_categories_with_amounts`:
entries of `line_items_and_categories` with at least two elements are inserted
in order, later insertions overwriting earlier ones.  The dictionary is only
ever read through `get`, so it is embedded as a function. -/
def buildCategoryLookup (cats : List (List PyVal)) : PyVal → Option PyVal :=
  cats.foldl
    (fun d item =>
      match item with
      | a :: c :: _ => fun k => if k = a then some c else d k
      | _ => d)
    (fun _ => Option.none)

/-- `match_categories_with_amounts` from `structuring/t12_utils.py`: build the
category lookup, then emit one `[line_item, amount, category]` triple per
extraction entry with at least two elements, defaulting the category to
`"Unknown"`. -/
def match_categories_with_amounts (amounts cats : List (List PyVal)) : List (List PyVal) :=
  let lookup := buildCategoryLookup cats
  amounts.filterMap
    (fun item =>
      match item with
      | a :: b :: _ => some [a, b, (lookup a).getD (PyVal.str "Unknown")]
      | _ => Option.none)

/-- The category the categorization list assigns to key `k`, the last
assignment in list order winning; entries with fewer than two elements assign
nothing. -/
def lastAssigned : List (List PyVal) → PyVal → Option PyVal
  | [], _ => Option.none
  | item :: t, k =>
    match lastAssigned t k with
    | some c => some c
    | Option.none =>
      match item with
      | a :: c :: _ => if a = k then some c else Option.none
      | _ => Option.none

/-- The category assigned to line item `k` by the categorization list, with
the `"Unknown"` default for unmatched keys. -/
def assignedCategory (cats : List (List PyVal)) (k : PyVal) : PyVal :=
  (lastAssigned cats k).getD (PyVal.str "Unknown")

/-! ## Rent roll structuring: `structuring/utils.py`, `convert_rent_roll_arrays_to_objects` -/

/-- A structured rent-roll unit, the object form produced by
`convert_rent_roll_arrays_to_objects`.  `lease_expiration` carries the raw
scalar from position 5 (`None` when missing/empty). -/
structure RentRollUnit where
  unit : String
  unit_type : String
  status : String
  unit_size : Int
  rent : Int
  lease_expiration : PyVal
deriving DecidableEq

/-- The per-row body of the loop in `convert_rent_roll_arrays_to_objects`:
rows with fewer than 4 elements are skipped (`continue`); otherwise the six
named fields are extracted positionally with the source's null/empty
handling.  No operation in the body can raise on scalar cell values, so the
enclosing `except` never fires here. -/
def convertRow (row : List PyVal) : Option RentRollUnit :=
  if row.length < 4 then Option.none
  else
    let cell := fun i => (row[i]?).getD PyVal.none
    let unit := if cell 0 ≠ PyVal.none ∧ cell 0 ≠ PyVal.str "" then pyStrip (pyStr (cell 0)) else ""
    let unit_type := if cell 1 ≠ PyVal.none ∧ cell 1 ≠ PyVal.str "" then pyStrip (pyStr (cell 1)) else ""
    let status := if cell 2 ≠ PyVal.none ∧ cell 2 ≠ PyVal.str "" then pyStrip (pyStr (cell 2)) else "Occupied"
    let unit_size := if 3 < row.length ∧ cell 3 ≠ PyVal.none ∧ cell 3 ≠ PyVal.str "" then (pyToIntFloat (cell 3)).getD 0 else 0
    let rent := if 4 < row.length ∧ cell 4 ≠ PyVal.none ∧ cell 4 ≠ PyVal.str "" then (pyToIntFloat (cell 4)).getD 0 else 0
    let lease_expiration := if 5 < row.length ∧ cell 5 ≠ PyVal.none ∧ cell 5 ≠ PyVal.str "" then cell 5 else PyVal.none
    some ⟨unit, unit_type, status, unit_size, rent, lease_expiration⟩

/-- `convert_rent_roll_arrays_to_objects` from `structuring/utils.py`. -/
def convert_rent_roll_arrays_to_objects (rows : List (List PyVal)) : List RentRollUnit :=
  rows.filterMap convertRow

/-! ## OM classification merge: `models/domain/underwriting.py`,
`EnhancedClassificationResult.merge_results` -/

/-- `ExtractedPropertyInfo` from `models/domain/underwriting.py`. -/
structure ExtractedPropertyInfo where
  value : String
  first_page : Int
deriving DecidableEq

/-- `EnhancedClassificationResult` from `models/domain/underwriting.py`: ten
scalar property-info fields and four page-list fields. -/
structure EnhancedClassificationResult where
  property_name : Option ExtractedPropertyInfo
  address : Option ExtractedPropertyInfo
  zip_code : Option ExtractedPropertyInfo
  city : Option ExtractedPropertyInfo
  state : Option ExtractedPropertyInfo
  number_of_units : Option ExtractedPropertyInfo
  year_built : Option ExtractedPropertyInfo
  parking_spaces : Option ExtractedPropertyInfo
  gross_square_feet : Option ExtractedPropertyInfo
  asking_price : Option ExtractedPropertyInfo
  t12 : List Int
  rent_roll : List Int
  executive_summary : List Int
  market_overview : List Int
deriving DecidableEq

/-- The property-info merge loop: the first non-null value in result order
wins. -/
def firstNonNull : List (Option ExtractedPropertyInfo) → Option ExtractedPropertyInfo
  | [] => Option.none
  | some x :: _ => some x
  | Option.none :: t => firstNonNull t

/-- Python `sorted(list(set(l)))` on a list of ints: the strictly increasing
enumeration of the set of elements. -/
def sortedDedup (l : List Int) : List Int :=
  l.toFinset.sort (· ≤ ·)

/-- The page-list merge loop of `merge_results`: concatenate every result's
list in order (`extend`), then sort and deduplicate. -/
def mergePages (ls : List (List Int)) : List Int :=
  sortedDedup (ls.foldl (fun acc l => acc ++ l) [])

/-- `EnhancedClassificationResult.merge_results`: scalar fields take the
first non-null value in result order; page-list fields take the sorted,
deduplicated union of all results' lists. -/
def merge_results (results : List EnhancedClassificationResult) : EnhancedClassificationResult :=
  ⟨firstNonNull (results.map (·.property_name)),
   firstNonNull (results.map (·.address)),
   firstNonNull (results.map (·.zip_code)),
   firstNonNull (results.map (·.city)),
   firstNonNull (results.map (·.state)),
   firstNonNull (results.map (·.number_of_units)),
   firstNonNull (results.map (·.year_built)),
   firstNonNull (results.map (·.parking_spaces)),
   firstNonNull (results.map (·.gross_square_feet)),
   firstNonNull (results.map (·.asking_price)),
   mergePages (results.map (·.t12)),
   mergePages (results.map (·.rent_roll)),
   mergePages (results.map (·.executive_summary)),
   mergePages (results.map (·.market_overview))⟩

/-! ## Page chunking: `om_extraction/utils.py`, `create_page_chunks` -/

/-- One chunk produced by `create_page_chunks`.  In the source the chunk is a
dict; the `"oversized"` key is only present (with value `True`) on chunks
emitted by the oversized branch, so it is embedded as a `Bool` that is
`false` when the key is absent. -/
structure Chunk where
  content : String
  pages : List Int
  chunk_id : Nat
  char_count : Nat
  oversized : Bool
deriving DecidableEq

/-- `page_content`: the page text prefixed with its `--- PAGE n ---` marker,
as built at the top of the loop in `create_page_chunks`. -/
def pageContent (n : Int) (t : String) : String :=
  "\n\n--- PAGE " ++ toString n ++ " ---\n\n" ++ t

/-- The loop state of `create_page_chunks`: emitted chunks, current chunk
pages/text/size, and the running chunk id. -/
structure ChunkState where
  chunks : List Chunk
  cur_pages : List Int
  cur_text : String
  cur_size : Nat
  chunk_id : Nat

/-- One iteration of the page loop in `create_page_chunks`: close the
current chunk when appending the page would exceed `chunk_size` (strict),
otherwise append the page; then emit the current chunk immediately as
`oversized` when this page's marker-decorated content alone exceeds
`chunk_size` and it is the only page of the current chunk. -/
def chunkStep (chunk_size : Nat) (st : ChunkState) (pg : Int × String) : ChunkState :=
  let pc := pageContent pg.1 pg.2
  let psize := pc.length
  let st1 :=
    if st.cur_pages ≠ [] ∧ chunk_size < st.cur_size + psize then
      ⟨st.chunks ++ [⟨pyStrip st.cur_text, st.cur_pages, st.chunk_id, st.cur_size, false⟩],
       [pg.1], pc, psize, st.chunk_id + 1⟩
    else
      ⟨st.chunks, st.cur_pages ++ [pg.1], st.cur_text ++ pc, st.cur_size + psize, st.chunk_id⟩
  if chunk_size < psize ∧ st1.cur_pages.length = 1 then
    ⟨st1.chunks ++ [⟨pyStrip st1.cur_text, st1.cur_pages, st1.chunk_id, st1.cur_size, true⟩],
     [], "", 0, st1.chunk_id + 1⟩
  else st1

/-- The trailing `if current_chunk_pages:` block of `create_page_chunks`:
emit whatever pages remain as a final chunk. -/
def finalizeChunks (st : ChunkState) : List Chunk :=
  if st.cur_pages ≠ [] then
    st.chunks ++ [⟨pyStrip st.cur_text, st.cur_pages, st.chunk_id, st.cur_size, false⟩]
  else st.chunks

/-- Stable insertion of a page entry into a list sorted by page number: the
new entry goes after all entries with a key less than or equal to its own. -/
def insertByKey (p : Int × String) : List (Int × String) → List (Int × String)
  | [] => [p]
  | q :: t => if q.1 ≤ p.1 then q :: insertByKey p t else p :: q :: t

/-- Python `sorted(pages_text.items())` for a dict with distinct integer
keys: a stable sort by key (with distinct keys the lexicographic item order
coincides with key order). -/
def pySortByKey (l : List (Int × String)) : List (Int × String) :=
  l.foldl (fun acc p => insertByKey p acc) []

/-- `create_page_chunks` from `om_extraction/utils.py`: fold the page loop
over the pages in ascending page-number order, then emit the remainder. -/
def create_page_chunks (pages_text : List (Int × String)) (chunk_size : Nat) : List Chunk :=
  finalizeChunks ((pySortByKey pages_text).foldl (chunkStep chunk_size) ⟨[], [], "", 0, 0⟩)

/-- The concatenation, in chunk order, of the chunks' `pages` lists. -/
def chunksPages : List Chunk → List Int
  | [] => []
  | c :: t => c.pages ++ chunksPages t

/-- The per-chunk size bound the chunker actually guarantees: a chunk either
fits the budget, or is a single-page chunk flagged oversized; and the
oversized flag is only set when the chunk's character count exceeds the
budget. -/
def chunkOK (S : Nat) (c : Chunk) : Prop :=
  (c.char_count ≤ S ∨ (c.pages.length = 1 ∧ c.oversized = true))
    ∧ (c.oversized = true → S < c.char_count)

/-- Invariant of the chunker's loop state: every emitted chunk satisfies
`chunkOK`, a nonempty current chunk fits the budget, and an empty current
chunk has size zero. -/
def chunkStateInv (S : Nat) (st : ChunkState) : Prop :=
  (∀ c ∈ st.chunks, chunkOK S c)
    ∧ (st.cur_pages ≠ [] → st.cur_size ≤ S)
    ∧ (st.cur_pages = [] → st.cur_size = 0)

/-! ## PDF precision extraction: `rent_roll_extraction/service.py`,
`_extract_pdf_with_boundaries` -/

/-- Index of the first occurrence of `pat` in `hay` (Python `hay.find(pat)`
for a found pattern; `none` when `pat in hay` is false).  The empty pattern
occurs at index 0, as in Python. -/
def findSub (hay pat : List Char) : Option Nat :=
  if pat.isPrefixOf hay then some 0
  else
    match hay with
    | [] => Option.none
    | _ :: t => (findSub t pat).map (· + 1)

/-- `PDFRentRollClassification` from `models/domain/rr_classification.py`. -/
structure PDFRentRollClassification where
  data_start_page : Int
  data_end_page : Int
  data_start_marker : Option String
  data_end_marker : Option String
  exclude_patterns : List String
  estimated_units : Option Int
  confidence : String
  column_headers : List String
deriving DecidableEq

/-- One entry of the raw extraction's `page_data` list: the fields
`_extract_pdf_with_boundaries` reads (`page_number` defaulting to 0 and
`text` defaulting to `""` are the dict `get` defaults). -/
structure PageData where
  page_number : Int
  text : String
deriving DecidableEq

/-- The `boundaries` dict attached to a PDF precision extract. -/
structure PDFBoundaries where
  start_page : Int
  end_page : Int
  start_marker : Option String
  end_marker : Option String
  column_headers : List String
deriving DecidableEq

/-- `PDFRentRollPrecisionExtract` from `models/domain/rr_classification.py`. -/
structure PDFRentRollPrecisionExtract where
  total_pages : Nat
  relevant_data : List (List String)
  boundaries : PDFBoundaries
deriving DecidableEq

/-- The marker trimming applied to one page's text inside the loop of
`_extract_pdf_with_boundaries`: when a non-empty start marker occurs in the
text, keep the text from the marker's first occurrence on; then, when a
non-empty end marker occurs in the remaining text, keep the text up to and
including that marker's first occurrence.  (The source also computes an
`end_line_start` index via `rfind` there, but never uses it.) -/
def applyMarkers (startM endM : Option String) (text : List Char) : List Char :=
  let t1 := match startM with
    | some m =>
      if m ≠ "" then
        match findSub text m.toList with
        | some i => text.drop i
        | Option.none => text
      else text
    | Option.none => text
  match endM with
  | some m =>
    if m ≠ "" then
      match findSub t1 m.toList with
      | some i => t1.take (i + m.toList.length)
      | Option.none => t1
    else t1
  | Option.none => t1

/-- `[line.strip() for line in text.split('\n') if line.strip()]`: the
non-empty stripped lines of a text. -/
def strippedLines (t : List Char) : List String :=
  (((t.splitOn '\n').map stripChars).filter (fun l => l ≠ [])).map List.asString

/-- The full per-page processing of `_extract_pdf_with_boundaries`: marker
trimming followed by line splitting/stripping/filtering. -/
def processPageText (startM endM : Option String) (text : String) : List String :=
  strippedLines (applyMarkers startM endM text.toList)

/-- `_extract_pdf_with_boundaries` from `rent_roll_extraction/service.py`:
collect the pages whose number lies in the inclusive page range, process
each with the marker trimming, and keep the pages that still have content. -/
def extract_pdf_with_boundaries (page_data : List PageData)
    (cls : PDFRentRollClassification) : PDFRentRollPrecisionExtract :=
  let relevant_pages := page_data.foldl
    (fun acc p =>
      if cls.data_start_page ≤ p.page_number ∧ p.page_number ≤ cls.data_end_page then
        acc ++ [p]
      else acc) []
  let relevant_data := relevant_pages.foldl
    (fun acc p =>
      let pc := processPageText cls.data_start_marker cls.data_end_marker p.text
      if pc ≠ [] then acc ++ [pc] else acc) []
  ⟨relevant_data.length, relevant_data,
   ⟨cls.data_start_page, cls.data_end_page, cls.data_start_marker,
    cls.data_end_marker, cls.column_headers⟩⟩

/-! ## Excel precision extraction: `rent_roll_extraction/service.py`,
`_extract_excel_with_boundaries`, and `rent_roll_extraction/utils.py`,
`convert_excel_data_to_enumerated_text` -/

/-- `ExcelRentRollClassification` from `models/domain/rr_classification.py`. -/
structure ExcelRentRollClassification where
  data_sheet_name : String
  data_start_row : Int
  data_end_row : Int
  data_start_column : Option String
  data_end_column : Option String
  exclude_patterns : List String
  estimated_units : Option Int
  confidence : String
  column_headers : List String
deriving DecidableEq

/-- One entry of the raw extraction's `sheets` list: name, row data, and the
precomputed row/column counts. -/
structure SheetInfo where
  sheet_name : String
  data : List (List PyVal)
  rows : Nat
  columns : Nat
deriving DecidableEq

/-- CPython list slicing `l[i:j]` (step 1): negative indices count from the
end, then both indices are clamped into `[0, len(l)]`. -/
def pySlice {α : Type} (l : List α) (i j : Int) : List α :=
  let n : Int := l.length
  let i2 := if i < 0 then max 0 (n + i) else min i n
  let j2 := if j < 0 then max 0 (n + j) else min j n
  (l.take j2.toNat).drop i2.toNat

/-- Python `sep.join(parts)`. -/
def joinSep (sep : String) : List String → String
  | [] => ""
  | [x] => x
  | x :: xs => x ++ sep ++ joinSep sep (xs)

/-- One `Row {i}: ...` line of the enumerated text: the row's cells joined
with tabs after `str()`. -/
def rowLine (i : Nat) (row : List PyVal) : String :=
  "Row " ++ toString i ++ ": " ++ joinSep "\t" (row.map pyStr)

/-- The lines contributed by one sheet to the enumerated text: a `Sheet:`
header followed by 1-based numbered rows, nothing for an empty sheet. -/
def sheetLines (s : SheetInfo) : List String :=
  if s.data ≠ [] then
    ("Sheet: " ++ s.sheet_name) :: ((s.data.enumFrom 1).map (fun p => rowLine p.1 p.2))
  else []

/-- `convert_excel_data_to_enumerated_text` from
`rent_roll_extraction/utils.py`. -/
def convert_excel_data_to_enumerated_text (sheets : List SheetInfo) : String :=
  joinSep "\n" (sheets.flatMap sheetLines)

/-- The `boundaries` dict attached to an Excel precision extract. -/
structure ExcelBoundaries where
  sheet_name : String
  start_row : Int
  end_row : Int
  start_column : Option String
  end_column : Option String
  column_headers : List String
deriving DecidableEq

/-- `ExcelRentRollPrecisionExtract` from `models/domain/rr_classification.py`. -/
structure ExcelRentRollPrecisionExtract where
  sheets : List SheetInfo
  total_sheets : Nat
  enumerated_text : String
  boundaries : ExcelBoundaries
deriving DecidableEq

/-- `_extract_excel_with_boundaries` from `rent_roll_extraction/service.py`:
find the target sheet by name (raising `ValueError` when absent, embedded as
`Except.error`), clamp a negative 0-based start index to 0 and an end row
exceeding the row count to the row count, slice the rows, and rebuild the
sheet info plus enumerated text. -/
def extract_excel_with_boundaries (sheets : List SheetInfo)
    (cls : ExcelRentRollClassification) : Except String ExcelRentRollPrecisionExtract :=
  match sheets.find? (fun s => s.sheet_name == cls.data_sheet_name) with
  | Option.none =>
    Except.error ("Sheet '" ++ cls.data_sheet_name ++ "' not found in extracted data")
  | some target =>
    let data := target.data
    let start_row0 := cls.data_start_row - 1
    let start_row := if start_row0 < 0 then 0 else start_row0
    let end_row := if (data.length : Int) < cls.data_end_row then (data.length : Int) else cls.data_end_row
    let relevant_data := pySlice data start_row end_row
    let relevant_sheet : SheetInfo :=
      ⟨target.sheet_name, relevant_data, relevant_data.length, (relevant_data.headD []).length⟩
    Except.ok ⟨[relevant_sheet], 1, convert_excel_data_to_enumerated_text [relevant_sheet],
      ⟨cls.data_sheet_name, cls.data_start_row, cls.data_end_row,
       cls.data_start_column, cls.data_end_column, cls.column_headers⟩⟩

/-- The rows of `data` at 1-based positions in the inclusive range `[a, b]`
(for `1 ≤ a`): the claim's notion of "the rows of the clamped inclusive
range". -/
def inclusiveRangeRows {α : Type} (data : List α) (a b : Int) : List α :=
  (data.take b.toNat).drop (a.toNat - 1)

/-! ## Excel mapping writer: `excel_generation/utils.py`,
`write_data_with_mapping` and `clear_data_rows` -/

/-- A worksheet's cell state: `(row, column) ↦ value`, with `PyVal.none` for
an empty cell (openpyxl reports a missing cell's value as `None`). -/
def Worksheet : Type := Nat → Nat → PyVal

/-- `worksheet.cell(row=r, column=c, value=v)`. -/
def setCell (ws : Worksheet) (r c : Nat) (v : PyVal) : Worksheet :=
  fun r2 c2 => if r2 = r ∧ c2 = c then v else ws r2 c2

/-- Python `range(a, b + 1)`. -/
def pyRangeIncl (a b : Nat) : List Nat :=
  List.range' a (b + 1 - a)

/-- `str(v).startswith('=')`: the formula test used by `clear_data_rows`. -/
def startsWithEq (v : PyVal) : Bool :=
  match (pyStr v).toList with
  | '=' :: _ => true
  | _ => false

/-- The per-cell body of `clear_data_rows`: clear the cell only when it is
non-empty and not a formula. -/
def clearCell (ws : Worksheet) (r c : Nat) : Worksheet :=
  if ws r c ≠ PyVal.none ∧ startsWithEq (ws r c) = false then
    setCell ws r c PyVal.none
  else ws

/-- `clear_data_rows` from `excel_generation/utils.py`: clear every
non-formula cell in the inclusive row/column rectangle. -/
def clear_data_rows (ws : Worksheet) (start_row end_row start_column end_column : Nat) :
    Worksheet :=
  (pyRangeIncl start_row end_row).foldl
    (fun w r => (pyRangeIncl start_column end_column).foldl (fun w2 c => clearCell w2 r c) w)
    ws

/-- openpyxl's `column_index_from_string` on uppercase column letters:
bijective base-26 (`"A" ↦ 1`).  (The library raises on invalid letters;
registered mappings carry valid ones.) -/
def column_index_from_string (s : String) : Nat :=
  s.toList.foldl (fun acc ch => acc * 26 + (ch.toNat - Char.toNat 'A' + 1)) 0

/-- `field_name in row_data` for a record embedded as an association list. -/
def rowHasKey (row : List (String × PyVal)) (f : String) : Bool :=
  row.any (fun p => p.1 == f)

/-- `row_data[field_name]` (keys are unique in a Python dict, so the first
match is the value). -/
def rowGet (row : List (String × PyVal)) (f : String) : PyVal :=
  ((row.find? (fun p => p.1 == f)).map (fun p => p.2)).getD PyVal.none

/-- The tabular mapping config consumed by `write_data_with_mapping`:
`columns` (field name → column letter, `""` embedding a falsy letter) and
`data_start_row`. -/
structure TabularMapping where
  columns : List (String × String)
  data_start_row : Nat

/-- Python `min` over a list of ints (the writer only calls it on a
non-empty list; `0` stands in for the empty case Python would raise on). -/
def natListMin : List Nat → Nat
  | [] => 0
  | x :: xs => xs.foldl Nat.min x

/-- Python `max` over a list of ints, as `natListMin`. -/
def natListMax : List Nat → Nat
  | [] => 0
  | x :: xs => xs.foldl Nat.max x

/-- `write_data_with_mapping` from `excel_generation/utils.py`: when there
is data and at least one mapped column letter, clear the mapped column range
from `data_start_row` through `data_start_row + len(data) + 10`; then write
each record's mapped fields, one row per record. -/
def write_data_with_mapping (ws : Worksheet) (data : List (List (String × PyVal)))
    (cfg : TabularMapping) : Worksheet :=
  let ws1 :=
    if data ≠ [] then
      let column_letters := (cfg.columns.map Prod.snd).filter (fun c => c ≠ "")
      if column_letters ≠ [] then
        let column_numbers := column_letters.map column_index_from_string
        clear_data_rows ws cfg.data_start_row (cfg.data_start_row + data.length + 10)
          (natListMin column_numbers) (natListMax column_numbers)
      else ws
    else ws
  (data.enum).foldl
    (fun w p =>
      cfg.columns.foldl
        (fun w2 fc =>
          if fc.2 ≠ "" ∧ rowHasKey p.2 fc.1 = true then
            setCell w2 (cfg.data_start_row + p.1) (column_index_from_string fc.2) (rowGet p.2 fc.1)
          else w2)
        w)
    ws1

/-- The cells the writing phase of `write_data_with_mapping` assigns: row
`data_start_row + i` for the `i`-th record, column taken from a mapped
non-empty column letter whose field the record carries. -/
def isWriteTarget (data : List (List (String × PyVal))) (cfg : TabularMapping)
    (r c : Nat) : Bool :=
  (data.enum).any (fun p =>
    (r == cfg.data_start_row + p.1)
      && cfg.columns.any (fun fc =>
        (!(fc.2 == "")) && rowHasKey p.2 fc.1 && (c == column_index_from_string fc.2)))

/-- The concrete worksheet used to exercise C3: a single formula cell at
row 1, column 1. -/
def wsFormulaAt11 : Worksheet :=
  fun r c => if r = 1 ∧ c = 1 then PyVal.str "=SUM(A2)" else PyVal.none

/-! ## Two-pass boundary classification: `rent_roll_classification/service.py`,
`analyze_rent_roll_boundaries` and `validate_boundaries` -/

/-- A JSON value as consumed by the boundary classifier: a scalar, an array
of scalars, or an object of scalars.  One level of nesting below the
top-level object is all the control flow of the service inspects (it only
asks whether `corrections_made` is dict-like). -/
inductive JVal where
  | prim (v : PyVal)
  | arr (vs : List PyVal)
  | obj (kvs : List (String × PyVal))
deriving DecidableEq

/-- `d.get(k)` on a parsed top-level JSON object. -/
def jGet (j : List (String × JVal)) (k : String) : Option JVal :=
  (j.find? (fun p => p.1 == k)).map (fun p => p.2)

/-- Python `s.lower()`. -/
def pyLower (s : String) : String :=
  (s.toList.map Char.toLower).asString

/-- A pydantic `int` field value from JSON: an int, or an int-coercible
string (lax mode). -/
def parseIntStr (s : String) : Option Int :=
  let t := stripChars s.toList
  let sgn : Int := match t with
    | '-' :: _ => -1
    | _ => 1
  let t2 := match t with
    | '-' :: r => r
    | '+' :: r => r
    | _ => t
  if t2 ≠ [] ∧ t2.all Char.isDigit then some (sgn * (digitsToNat t2 : Int)) else Option.none

/-- A required pydantic `int` field: missing or non-coercible values are a
validation error. -/
def jInt : Option JVal → Option Int
  | some (JVal.prim (PyVal.int n)) => some n
  | some (JVal.prim (PyVal.str s)) => parseIntStr s
  | _ => Option.none

/-- A required pydantic `str` field. -/
def jStr : Option JVal → Option String
  | some (JVal.prim (PyVal.str s)) => some s
  | _ => Option.none

/-- A pydantic `Optional[str] = None` field: absent or `null` is `None`. -/
def jOptStr : Option JVal → Option (Option String)
  | Option.none => some Option.none
  | some (JVal.prim PyVal.none) => some Option.none
  | some (JVal.prim (PyVal.str s)) => some (some s)
  | _ => Option.none

/-- A pydantic `Optional[int] = None` field. -/
def jOptInt : Option JVal → Option (Option Int)
  | Option.none => some Option.none
  | some (JVal.prim PyVal.none) => some Option.none
  | some (JVal.prim (PyVal.int n)) => some (some n)
  | some (JVal.prim (PyVal.str s)) => (parseIntStr s).map some
  | _ => Option.none

/-- A pydantic `List[str] = []` field. -/
def jStrList : Option JVal → Option (List String)
  | Option.none => some []
  | some (JVal.arr vs) =>
    if vs.all (fun v => match v with | PyVal.str _ => true | _ => false) then
      some (vs.filterMap (fun v => match v with | PyVal.str s => some s | _ => Option.none))
    else Option.none
  | _ => Option.none

/-- A pydantic `str` field with a default. -/
def jStrD (dflt : String) : Option JVal → Option String
  | Option.none => some dflt
  | some (JVal.prim (PyVal.str s)) => some s
  | _ => Option.none

/-- `PDFRentRollClassification(**j)`: the pydantic constructor for the
fields declared in `models/domain/rr_classification.py`; a validation error
(missing or ill-typed required field) is `none`, which the service's
`except` turns into a `None` analysis result.  Extra keys are ignored, as
pydantic does by default. -/
def mkPDFClassificationJ (j : List (String × JVal)) : Option PDFRentRollClassification :=
  match jInt (jGet j "data_start_page"), jInt (jGet j "data_end_page"),
      jOptStr (jGet j "data_start_marker"), jOptStr (jGet j "data_end_marker"),
      jStrList (jGet j "exclude_patterns"), jOptInt (jGet j "estimated_units"),
      jStrD "medium" (jGet j "confidence"), jStrList (jGet j "column_headers") with
  | some sp, some ep, some sm, some em, some exc, some eu, some conf, some ch =>
    some ⟨sp, ep, sm, em, exc, eu, conf, ch⟩
  | _, _, _, _, _, _, _, _ => Option.none

/-- `ExcelRentRollClassification(**j)`, as `mkPDFClassificationJ`. -/
def mkExcelClassificationJ (j : List (String × JVal)) : Option ExcelRentRollClassification :=
  match jStr (jGet j "data_sheet_name"), jInt (jGet j "data_start_row"),
      jInt (jGet j "data_end_row"), jOptStr (jGet j "data_start_column"),
      jOptStr (jGet j "data_end_column"), jStrList (jGet j "exclude_patterns"),
      jOptInt (jGet j "estimated_units"), jStrD "medium" (jGet j "confidence"),
      jStrList (jGet j "column_headers") with
  | some sn, some sr, some er, some sc, some ec, some exc, some eu, some conf, some ch =>
    some ⟨sn, sr, er, sc, ec, exc, eu, conf, ch⟩
  | _, _, _, _, _, _, _, _, _ => Option.none

/-- The tagged result of `analyze_rent_roll_boundaries`. -/
inductive RRClassification where
  | pdf (c : PDFRentRollClassification)
  | excel (c : ExcelRentRollClassification)
deriving DecidableEq

/-- The final model conversion of `analyze_rent_roll_boundaries`: construct
the PDF or Excel pydantic model from the chosen result dict. -/
def build_classification (ft : String) (j : List (String × JVal)) : Option RRClassification :=
  if pyLower ft = "pdf" then (mkPDFClassificationJ j).map RRClassification.pdf
  else (mkExcelClassificationJ j).map RRClassification.excel

/-- `re.search(r'\x7b.*?\x7d', s, re.DOTALL)`: the leftmost, shortest
brace-delimited span — from the first `'\x7b'` that has a closing
`'\x7d'` after it, up to the first such closer.  (If the first opener has no
closer after it, no later opener has one either.) -/
def nonGreedyBrace : List Char → Option (List Char)
  | [] => Option.none
  | ch :: t =>
    if ch = '\x7b' then
      match t.findIdx? (fun c2 => c2 = '\x7d') with
      | some j => some ('\x7b' :: t.take (j + 1))
      | Option.none => Option.none
    else nonGreedyBrace t

/-- Index of the last occurrence of `c` in `l`. -/
def lastIdxOf (c : Char) : List Char → Option Nat
  | [] => Option.none
  | x :: t =>
    match lastIdxOf c t with
    | some j => some (j + 1)
    | Option.none => if x = c then some 0 else Option.none

/-- `re.search(r'\x7b.*\x7d', s, re.DOTALL)`: the leftmost, longest
brace-delimited span — from the first opener through the last closer. -/
def greedyBrace : List Char → Option (List Char)
  | [] => Option.none
  | ch :: t =>
    if ch = '\x7b' then
      match lastIdxOf '\x7d' t with
      | some j => some ('\x7b' :: t.take (j + 1))
      | Option.none => Option.none
    else greedyBrace t

/-- `validate_boundaries` from `rent_roll_classification/service.py`,
abstracted over the external collaborators: `json_loads` is Python's JSON
parser and `pass2` the outcome of the context-extraction plus LLM call
(`Except.error` when any of it raises).  Every failure — an exception, no
brace-delimited span, unparseable JSON, or a non-dict `corrections_made`
value (whose `.get` raises `AttributeError`) — is caught by the function's
own `except` and becomes `None`. -/
def validate_boundaries (json_loads : String → Option (List (String × JVal)))
    (pass2 : Except String String) : Option (List (String × JVal)) :=
  match pass2 with
  | Except.error _ => Option.none
  | Except.ok resp =>
    match greedyBrace resp.toList with
    | Option.none => Option.none
    | some js =>
      match json_loads js.asString with
      | Option.none => Option.none
      | some v =>
        match jGet v "corrections_made" with
        | some (JVal.prim _) => Option.none
        | some (JVal.arr _) => Option.none
        | _ => some v

/-- `analyze_rent_roll_boundaries` from
`rent_roll_classification/service.py`: reject unsupported file types and
blank text (the raised `ValueError` is caught by the function's own
`except`, yielding `None`), parse the first pass-1 JSON object (parse
failure yields `None`), run pass-2 validation, fall back to the pass-1
result when validation returns `None` — or an empty (falsy) dict — and
convert the chosen dict to the tagged classification model.  `pass1_response`
is the pass-1 LLM chain's response for this text. -/
def analyze_rent_roll_boundaries (json_loads : String → Option (List (String × JVal)))
    (file_type text pass1_response : String) (pass2 : Except String String) :
    Option RRClassification :=
  if ¬ (pyLower file_type = "pdf" ∨ pyLower file_type = "excel") then Option.none
  else if pyStrip text = "" then Option.none
  else
    match nonGreedyBrace pass1_response.toList with
    | Option.none => Option.none
    | some js =>
      match json_loads js.asString with
      | Option.none => Option.none
      | some first =>
        let final := match validate_boundaries json_loads pass2 with
          | some v => if v = [] then first else v
          | Option.none => first
        build_classification file_type final

/-- A concrete `json_loads` used to exercise C6: parses exactly the empty
object. -/
def loadsEmptyObj : String → Option (List (String × JVal)) :=
  fun s => if s = "\x7b\x7d" then some [] else Option.none

theorem buildCategoryLookup_eq_lastAssigned (cats : List (List PyVal)) (k : PyVal) :
    buildCategoryLookup cats k = lastAssigned cats k := by
  suffices h : ∀ (d : PyVal → Option PyVal),
      (cats.foldl
        (fun d item =>
          match item with
          | a :: c :: _ => fun k => if k = a then some c else d k
          | _ => d) d) k
        = match lastAssigned cats k with
          | some c => some c
          | Option.none => d k by
    have h2 := h (fun _ => Option.none)
    unfold buildCategoryLookup
    rw [h2]
    cases lastAssigned cats k <;> rfl
  induction cats with
  | nil => intro d; rfl
  | cons item t ih =>
    intro d
    cases item with
    | nil =>
      simp only [List.foldl_cons, lastAssigned]
      rw [ih d]
      cases h : lastAssigned t k <;> simp [h]
    | cons a rest =>
      cases rest with
      | nil =>
        simp only [List.foldl_cons, lastAssigned]
        rw [ih d]
        cases h : lastAssigned t k <;> simp [h]
      | cons c rest2 =>
        simp only [List.foldl_cons, lastAssigned]
        rw [ih (fun k => if k = a then some c else d k)]
        cases h : lastAssigned t k with
        | some c2 => simp [h]
        | none =>
          simp only [h]
          by_cases hk : a = k
          · subst hk; simp
          · have hk2 : ¬ (k = a) := fun h2 => hk h2.symm
            simp [if_neg hk, if_neg hk2]

theorem lastAssigned_append_short (xs ys : List (List PyVal)) (item : List PyVal)
    (h : item.length < 2) (k : PyVal) :
    lastAssigned (xs ++ item :: ys) k = lastAssigned (xs ++ ys) k := by
  induction xs with
  | nil =>
    simp only [List.nil_append, lastAssigned]
    cases hy : lastAssigned ys k with
    | some c => simp [hy]
    | none =>
      simp only [hy]
      cases item with
      | nil => rfl
      | cons a rest =>
        cases rest with
        | nil => rfl
        | cons b rest2 =>
          exfalso
          simp only [List.length_cons] at h
          omega
  | cons x xs ih =>
    simp only [List.cons_append, lastAssigned, List.append_eq]
    rw [ih]

/-- C1 (T12 join completeness): when every extraction pair has at least a
line item and an amount, `match_categories_with_amounts` returns exactly one
`[line_item, amount, category]` triple per extraction pair, in extraction
order, with the extraction's own line item and amount, and with the category
the categorization list assigns to that exact line-item value
(`"Unknown"` when it assigns none). -/
theorem t12_join_completeness (amounts cats : List (List PyVal))
    (h : ∀ item ∈ amounts, 2 ≤ item.length) :
    match_categories_with_amounts amounts cats =
      amounts.map (fun item =>
        [item.headD PyVal.none, (item[1]?).getD PyVal.none,
         assignedCategory cats (item.headD PyVal.none)]) := by
  unfold match_categories_with_amounts
  induction amounts with
  | nil => rfl
  | cons item t ih =>
    have h1 : 2 ≤ item.length := h item (by simp)
    have ht : ∀ x ∈ t, 2 ≤ x.length := fun x hx => h x (by simp [hx])
    cases item with
    | nil => simp at h1
    | cons a rest =>
      cases rest with
      | nil => simp at h1
      | cons b rest2 =>
        simp only [List.filterMap_cons, List.map_cons]
        rw [ih ht]
        simp [assignedCategory, buildCategoryLookup_eq_lastAssigned]

theorem t12_join_completeness_witness :
    match_categories_with_amounts
        [[PyVal.str "Base Rent", PyVal.int 50000], [PyVal.str "Misc", PyVal.int 200]]
        [[PyVal.str "Base Rent", PyVal.str "Residential Rent"]]
      = [[PyVal.str "Base Rent", PyVal.int 50000, PyVal.str "Residential Rent"],
         [PyVal.str "Misc", PyVal.int 200, PyVal.str "Unknown"]] := by
  rw [t12_join_completeness _ _ (by decide)]
  decide

/-- C10 (deterministic match details): every output triple of
`match_categories_with_amounts` carries the category given by the last
assignment of its line item in the categorization list (`"Unknown"` when no
entry assigns it), and categorization entries with fewer than two elements
are ignored entirely. -/
theorem t12_last_assignment_wins :
    (∀ (amounts cats : List (List PyVal)) (out : List PyVal),
        out ∈ match_categories_with_amounts amounts cats →
        ∃ a b, out = [a, b, assignedCategory cats a])
    ∧ (∀ (amounts xs ys : List (List PyVal)) (item : List PyVal),
        item.length < 2 →
        match_categories_with_amounts amounts (xs ++ item :: ys)
          = match_categories_with_amounts amounts (xs ++ ys)) := by
  constructor
  · intro amounts cats out hout
    unfold match_categories_with_amounts at hout
    obtain ⟨item, hmem, hsome⟩ := List.mem_filterMap.mp hout
    cases item with
    | nil => simp at hsome
    | cons a rest =>
      cases rest with
      | nil => simp at hsome
      | cons b rest2 =>
        refine ⟨a, b, ?_⟩
        simp only [Option.some_inj] at hsome
        rw [← hsome]
        simp [assignedCategory, buildCategoryLookup_eq_lastAssigned]
  · intro amounts xs ys item h
    unfold match_categories_with_amounts
    have hfun : buildCategoryLookup (xs ++ item :: ys) = buildCategoryLookup (xs ++ ys) := by
      funext k
      rw [buildCategoryLookup_eq_lastAssigned, buildCategoryLookup_eq_lastAssigned]
      exact lastAssigned_append_short xs ys item h k
    rw [hfun]

theorem t12_last_assignment_wins_witness :
    match_categories_with_amounts [[PyVal.str "Rent", PyVal.int 5]]
        [[PyVal.str "Rent"], [PyVal.str "Rent", PyVal.str "A"], [PyVal.str "Rent", PyVal.str "B"]]
      = [[PyVal.str "Rent", PyVal.int 5, PyVal.str "B"]] := by
  have h2 := t12_last_assignment_wins.2 [[PyVal.str "Rent", PyVal.int 5]] []
      [[PyVal.str "Rent", PyVal.str "A"], [PyVal.str "Rent", PyVal.str "B"]]
      [PyVal.str "Rent"] (by decide)
  exact h2.trans (by decide)

theorem convertRow_isSome (row : List PyVal) :
    (convertRow row).isSome = decide (4 ≤ row.length) := by
  unfold convertRow
  by_cases h : row.length < 4
  · rw [if_pos h]
    simp
    omega
  · rw [if_neg h]
    simp
    omega

/-- C7 (rent-roll row tolerance): rows with fewer than 4 elements are
dropped; every row with at least 4 elements yields exactly one unit; a
4-element row gets `rent = 0` and `lease_expiration = None`; a 5-element row
gets `lease_expiration = None`; a null or empty third element (status)
defaults to `"Occupied"`; and the spec's two concrete examples behave as
stated. -/
theorem rent_roll_row_tolerance :
    (∀ (xs ys : List (List PyVal)) (row : List PyVal), row.length < 4 →
        convert_rent_roll_arrays_to_objects (xs ++ row :: ys)
          = convert_rent_roll_arrays_to_objects (xs ++ ys))
    ∧ (∀ rows : List (List PyVal),
        (convert_rent_roll_arrays_to_objects rows).length
          = (rows.filter (fun r => decide (4 ≤ r.length))).length)
    ∧ (∀ row : List PyVal, row.length = 4 →
        (convertRow row).map (fun u => (u.rent, u.lease_expiration)) = some (0, PyVal.none))
    ∧ (∀ row : List PyVal, row.length = 5 →
        (convertRow row).map (fun u => u.lease_expiration) = some PyVal.none)
    ∧ (∀ row : List PyVal, 4 ≤ row.length →
        (row[2]? = some PyVal.none ∨ row[2]? = some (PyVal.str "")) →
        (convertRow row).map (fun u => u.status) = some "Occupied")
    ∧ convert_rent_roll_arrays_to_objects [[PyVal.str "101", PyVal.str "1BR", PyVal.str "Occupied"]] = []
    ∧ convert_rent_roll_arrays_to_objects
        [[PyVal.str "101", PyVal.str "1BR", PyVal.str "Occupied", PyVal.str "750"]]
      = [⟨"101", "1BR", "Occupied", 750, 0, PyVal.none⟩] := by
  refine ⟨?_, ?_, ?_, ?_, ?_, by decide, by decide⟩
  · intro xs ys row h
    have hnone : convertRow row = Option.none := by
      unfold convertRow
      rw [if_pos h]
    simp [convert_rent_roll_arrays_to_objects, List.filterMap_append, List.filterMap_cons, hnone]
  · intro rows
    induction rows with
    | nil => rfl
    | cons row t ih =>
      simp only [convert_rent_roll_arrays_to_objects, List.filterMap_cons, List.filter_cons] at *
      have hs := convertRow_isSome row
      by_cases h : 4 ≤ row.length
      · rw [decide_eq_true h] at hs
        obtain ⟨u, hu⟩ := Option.isSome_iff_exists.mp hs
        simp [hu, decide_eq_true h, ih]
      · rw [decide_eq_false h] at hs
        cases hc : convertRow row with
        | some u => rw [hc] at hs; exact absurd hs (by simp)
        | none => simp [hc, decide_eq_false h, ih]
  · intro row hlen
    unfold convertRow
    rw [if_neg (by omega)]
    have h4 : ¬ (4 < row.length ∧ (row[4]?).getD PyVal.none ≠ PyVal.none ∧ (row[4]?).getD PyVal.none ≠ PyVal.str "") := by
      intro hc
      omega
    have h5 : ¬ (5 < row.length ∧ (row[5]?).getD PyVal.none ≠ PyVal.none ∧ (row[5]?).getD PyVal.none ≠ PyVal.str "") := by
      intro hc
      omega
    simp only [if_neg h4, if_neg h5]
    rfl
  · intro row hlen
    unfold convertRow
    rw [if_neg (by omega)]
    have h5 : ¬ (5 < row.length ∧ (row[5]?).getD PyVal.none ≠ PyVal.none ∧ (row[5]?).getD PyVal.none ≠ PyVal.str "") := by
      intro hc
      omega
    simp only [if_neg h5]
    rfl
  · intro row hlen h2
    unfold convertRow
    rw [if_neg (by omega)]
    have hcell : ¬ ((row[2]?).getD PyVal.none ≠ PyVal.none ∧ (row[2]?).getD PyVal.none ≠ PyVal.str "") := by
      cases h2 with
      | inl h => rw [h]; simp
      | inr h => rw [h]; simp
    simp only [if_neg hcell]
    rfl

theorem rent_roll_row_tolerance_witness :
    convert_rent_roll_arrays_to_objects
        ([[PyVal.str "u"]] ++ [PyVal.str "101", PyVal.str "1BR", PyVal.str "Occupied"] :: [])
      = convert_rent_roll_arrays_to_objects ([[PyVal.str "u"]] ++ [])
    ∧ (convertRow [PyVal.str "101", PyVal.none, PyVal.str "", PyVal.int 700]).map (fun u => u.status)
      = some "Occupied" := by
  constructor
  · exact rent_roll_row_tolerance.1 [[PyVal.str "u"]] [] _ (by decide)
  · exact rent_roll_row_tolerance.2.2.2.2.1 _ (by decide) (Or.inr (by decide))

theorem sortedDedup_append_comm (a b : List Int) :
    sortedDedup (a ++ b) = sortedDedup (b ++ a) := by
  unfold sortedDedup
  rw [List.toFinset_append, List.toFinset_append, Finset.union_comm]

theorem sortedDedup_append_self (a : List Int) :
    sortedDedup (a ++ a) = sortedDedup a := by
  unfold sortedDedup
  rw [List.toFinset_append, Finset.union_self]

/-- C8 (merge commutativity/idempotence on page-list fields): merging
`[A, B]` and `[B, A]` gives identical values on each of the four page-list
fields, each equal to the sorted duplicate-free union of the two inputs'
lists, and merging `[A, A]` gives the same page lists as merging `[A]`. -/
theorem merge_page_lists_comm_idem (A B : EnhancedClassificationResult) :
    ((merge_results [A, B]).t12 = (merge_results [B, A]).t12
      ∧ (merge_results [A, B]).t12 = sortedDedup (A.t12 ++ B.t12)
      ∧ (merge_results [A, A]).t12 = (merge_results [A]).t12)
    ∧ ((merge_results [A, B]).rent_roll = (merge_results [B, A]).rent_roll
      ∧ (merge_results [A, B]).rent_roll = sortedDedup (A.rent_roll ++ B.rent_roll)
      ∧ (merge_results [A, A]).rent_roll = (merge_results [A]).rent_roll)
    ∧ ((merge_results [A, B]).executive_summary = (merge_results [B, A]).executive_summary
      ∧ (merge_results [A, B]).executive_summary = sortedDedup (A.executive_summary ++ B.executive_summary)
      ∧ (merge_results [A, A]).executive_summary = (merge_results [A]).executive_summary)
    ∧ ((merge_results [A, B]).market_overview = (merge_results [B, A]).market_overview
      ∧ (merge_results [A, B]).market_overview = sortedDedup (A.market_overview ++ B.market_overview)
      ∧ (merge_results [A, A]).market_overview = (merge_results [A]).market_overview) := by
  refine ⟨⟨?_, ?_, ?_⟩, ⟨?_, ?_, ?_⟩, ⟨?_, ?_, ?_⟩, ⟨?_, ?_, ?_⟩⟩ <;>
    simp [merge_results, mergePages, sortedDedup_append_comm, sortedDedup_append_self]

theorem chunksPages_append (a b : List Chunk) :
    chunksPages (a ++ b) = chunksPages a ++ chunksPages b := by
  induction a with
  | nil => rfl
  | cons c t ih => simp [chunksPages, ih]

theorem chunkStep_pages (S : Nat) (st : ChunkState) (pg : Int × String) :
    chunksPages (chunkStep S st pg).chunks ++ (chunkStep S st pg).cur_pages
      = (chunksPages st.chunks ++ st.cur_pages) ++ [pg.1] := by
  unfold chunkStep
  by_cases h1 : st.cur_pages ≠ [] ∧ S < st.cur_size + (pageContent pg.1 pg.2).length
  · simp only [if_pos h1]
    by_cases h2 : S < (pageContent pg.1 pg.2).length ∧ ([pg.1] : List Int).length = 1
    · simp only [if_pos h2]
      simp [chunksPages_append, chunksPages]
    · simp only [if_neg h2]
      simp [chunksPages_append, chunksPages]
  · simp only [if_neg h1]
    by_cases h2 : S < (pageContent pg.1 pg.2).length ∧ (st.cur_pages ++ [pg.1]).length = 1
    · simp only [if_pos h2]
      simp [chunksPages_append, chunksPages]
    · simp only [if_neg h2]
      simp [chunksPages_append, chunksPages]

theorem chunkFold_pages (S : Nat) (l : List (Int × String)) :
    ∀ st : ChunkState,
      chunksPages (finalizeChunks (l.foldl (chunkStep S) st))
        = (chunksPages st.chunks ++ st.cur_pages) ++ l.map Prod.fst := by
  induction l with
  | nil =>
    intro st
    simp only [List.foldl_nil, List.map_nil]
    unfold finalizeChunks
    by_cases h : st.cur_pages ≠ []
    · rw [if_pos h]
      simp [chunksPages_append, chunksPages]
    · rw [if_neg h]
      rw [not_not] at h
      simp [h]
  | cons pg t ih =>
    intro st
    simp only [List.foldl_cons, List.map_cons]
    rw [ih (chunkStep S st pg), chunkStep_pages]
    simp [List.append_assoc]

theorem chunkStep_inv (S : Nat) (st : ChunkState) (pg : Int × String)
    (h : chunkStateInv S st) : chunkStateInv S (chunkStep S st pg) := by
  obtain ⟨hok, hne, hemp⟩ := h
  unfold chunkStep
  by_cases h1 : st.cur_pages ≠ [] ∧ S < st.cur_size + (pageContent pg.1 pg.2).length
  · simp only [if_pos h1]
    by_cases h2 : S < (pageContent pg.1 pg.2).length ∧ ([pg.1] : List Int).length = 1
    · simp only [if_pos h2]
      refine ⟨?_, ?_, ?_⟩
      · intro c hc
        rcases List.mem_append.mp hc with hc2 | hc2
        · rcases List.mem_append.mp hc2 with hc3 | hc3
          · exact hok c hc3
          · simp at hc3
            subst hc3
            exact ⟨Or.inl (hne h1.1), by simp⟩
        · simp at hc2
          subst hc2
          exact ⟨Or.inr ⟨rfl, rfl⟩, fun _ => h2.1⟩
      · intro hcontra
        simp at hcontra
      · intro _
        rfl
    · simp only [if_neg h2]
      have hps : ¬ S < (pageContent pg.1 pg.2).length := by
        intro hlt
        exact h2 ⟨hlt, rfl⟩
      refine ⟨?_, ?_, ?_⟩
      · intro c hc
        rcases List.mem_append.mp hc with hc2 | hc2
        · exact hok c hc2
        · simp at hc2
          subst hc2
          exact ⟨Or.inl (hne h1.1), by simp⟩
      · intro _
        show (pageContent pg.1 pg.2).length ≤ S
        omega
      · intro hcontra
        simp at hcontra
  · simp only [if_neg h1]
    by_cases h2 : S < (pageContent pg.1 pg.2).length ∧ (st.cur_pages ++ [pg.1]).length = 1
    · simp only [if_pos h2]
      have hcur : st.cur_pages = [] := by
        have := h2.2
        cases hc : st.cur_pages with
        | nil => rfl
        | cons a t =>
          rw [hc] at this
          simp at this
      refine ⟨?_, ?_, ?_⟩
      · intro c hc
        rcases List.mem_append.mp hc with hc2 | hc2
        · exact hok c hc2
        · simp at hc2
          subst hc2
          refine ⟨Or.inr ⟨h2.2, rfl⟩, fun _ => ?_⟩
          have h0 : st.cur_size = 0 := hemp hcur
          have hlt := h2.1
          show S < st.cur_size + (pageContent pg.1 pg.2).length
          omega
      · intro hcontra
        simp at hcontra
      · intro _
        rfl
    · simp only [if_neg h2]
      refine ⟨hok, ?_, ?_⟩
      · intro _
        show st.cur_size + (pageContent pg.1 pg.2).length ≤ S
        by_cases hcur : st.cur_pages = []
        · have h0 : st.cur_size = 0 := hemp hcur
          have hps : ¬ S < (pageContent pg.1 pg.2).length := by
            intro hlt
            refine h2 ⟨hlt, ?_⟩
            rw [hcur]
            rfl
          omega
        · have hsum : ¬ S < st.cur_size + (pageContent pg.1 pg.2).length := by
            intro hlt
            exact h1 ⟨hcur, hlt⟩
          omega
      · intro hcontra
        simp at hcontra

theorem chunkFold_inv (S : Nat) (l : List (Int × String)) :
    ∀ st, chunkStateInv S st → chunkStateInv S (l.foldl (chunkStep S) st) := by
  induction l with
  | nil => intro st h; exact h
  | cons pg t ih => intro st h; exact ih _ (chunkStep_inv S st pg h)

theorem finalizeChunks_ok (S : Nat) (st : ChunkState) (h : chunkStateInv S st) :
    ∀ c ∈ finalizeChunks st, chunkOK S c := by
  obtain ⟨hok, hne, hemp⟩ := h
  unfold finalizeChunks
  by_cases hcur : st.cur_pages ≠ []
  · rw [if_pos hcur]
    intro c hc
    rcases List.mem_append.mp hc with hc2 | hc2
    · exact hok c hc2
    · simp at hc2
      subst hc2
      exact ⟨Or.inl (hne hcur), by simp⟩
  · rw [if_neg hcur]
    exact hok

theorem insertByKey_perm (p : Int × String) (l : List (Int × String)) :
    (insertByKey p l).Perm (p :: l) := by
  induction l with
  | nil => exact List.Perm.refl _
  | cons q t ih =>
    unfold insertByKey
    by_cases h : q.1 ≤ p.1
    · rw [if_pos h]
      exact (ih.cons q).trans (List.Perm.swap p q t)
    · rw [if_neg h]

theorem pySortByKey_perm (l : List (Int × String)) : (pySortByKey l).Perm l := by
  suffices h : ∀ acc : List (Int × String),
      (l.foldl (fun acc p => insertByKey p acc) acc).Perm (acc ++ l) by
    exact h []
  induction l with
  | nil => intro acc; simp
  | cons x t ih =>
    intro acc
    simp only [List.foldl_cons]
    refine (ih (insertByKey x acc)).trans ?_
    refine (((insertByKey_perm x acc).append_right t)).trans ?_
    exact List.perm_middle.symm

theorem insertByKey_sorted (p : Int × String) (l : List (Int × String))
    (h : l.Pairwise (fun a b => a.1 ≤ b.1)) :
    (insertByKey p l).Pairwise (fun a b => a.1 ≤ b.1) := by
  induction l with
  | nil => simp [insertByKey]
  | cons q t ih =>
    rcases List.pairwise_cons.mp h with ⟨hq, ht⟩
    unfold insertByKey
    by_cases hle : q.1 ≤ p.1
    · rw [if_pos hle]
      refine List.pairwise_cons.mpr ⟨?_, ih ht⟩
      intro b hb
      rcases List.mem_cons.mp (((insertByKey_perm p t).mem_iff).mp hb) with hb2 | hb2
      · rw [hb2]
        exact hle
      · exact hq b hb2
    · rw [if_neg hle]
      have hp : p.1 ≤ q.1 := le_of_not_le hle
      refine List.pairwise_cons.mpr ⟨?_, h⟩
      intro b hb
      rcases List.mem_cons.mp hb with hb2 | hb2
      · rw [hb2]
        exact hp
      · exact hp.trans (hq b hb2)

theorem pySortByKey_sorted (l : List (Int × String)) :
    (pySortByKey l).Pairwise (fun a b => a.1 ≤ b.1) := by
  suffices h : ∀ acc : List (Int × String), acc.Pairwise (fun a b => a.1 ≤ b.1) →
      (l.foldl (fun acc p => insertByKey p acc) acc).Pairwise (fun a b => a.1 ≤ b.1) by
    exact h [] (by simp)
  induction l with
  | nil => intro acc hacc; exact hacc
  | cons x t ih =>
    intro acc hacc
    simp only [List.foldl_cons]
    exact ih (insertByKey x acc) (insertByKey_sorted x acc hacc)

/-- C2 counterexample: with budget `S = 20` and the single page `1 ↦ "abcd"`
(whose own text has length `4 ≤ 20`), `create_page_chunks` emits one chunk
with `char_count = 22 > 20` flagged oversized, because the chunk size counts
the `--- PAGE 1 ---` marker wrapper, not just the page's own text.  This
refutes the claim that a chunk's `char_count` exceeds `S` only when the
page's own text exceeds `S`. -/
theorem page_chunker_claim_counterexample :
    create_page_chunks [(1, "abcd")] 20
      = [⟨"--- PAGE 1 ---\n\nabcd", [1], 0, 22, true⟩]
    ∧ "abcd".length ≤ 20 ∧ 20 < 22 := by
  refine ⟨?_, by decide, by decide⟩
  decide

/-- C2 amended (PageChunker contract): concatenating the chunks' `pages`
lists in chunk order reproduces the key-sorted page sequence exactly once
(`pySortByKey` being a by-key-sorted permutation of the input page map), and
no chunk's `char_count` exceeds the budget `S` unless the chunk consists of
exactly one page and is flagged oversized — which happens exactly when the
page's marker-decorated content (`--- PAGE n ---` header plus text) exceeds
`S`, the flag implying `char_count > S`. -/
theorem page_chunker_contract (pages : List (Int × String)) (S : Nat) :
    chunksPages (create_page_chunks pages S) = (pySortByKey pages).map Prod.fst
    ∧ (pySortByKey pages).Perm pages
    ∧ (pySortByKey pages).Pairwise (fun a b => a.1 ≤ b.1)
    ∧ ∀ c ∈ create_page_chunks pages S,
        (c.char_count ≤ S ∨ (c.pages.length = 1 ∧ c.oversized = true))
          ∧ (c.oversized = true → S < c.char_count) := by
  refine ⟨?_, pySortByKey_perm pages, pySortByKey_sorted pages, ?_⟩
  · unfold create_page_chunks
    rw [chunkFold_pages]
    simp [chunksPages]
  · intro c hc
    have hinv : chunkStateInv S (⟨[], [], "", 0, 0⟩ : ChunkState) := by
      refine ⟨?_, ?_, ?_⟩
      · intro c hc
        simp [chunksPages] at hc
      · intro hcontra
        simp at hcontra
      · intro _
        rfl
    exact finalizeChunks_ok S _ (chunkFold_inv S (pySortByKey pages) _ hinv) c hc

theorem page_chunker_contract_witness :
    chunksPages (create_page_chunks [(2, "bb"), (1, "aa")] 50) = [1, 2]
    ∧ ((⟨"--- PAGE 1 ---\n\naa\n\n--- PAGE 2 ---\n\nbb", [1, 2], 0, 40, false⟩ : Chunk).char_count ≤ 50
        ∨ (([1, 2] : List Int).length = 1
            ∧ (⟨"--- PAGE 1 ---\n\naa\n\n--- PAGE 2 ---\n\nbb", [1, 2], 0, 40, false⟩ : Chunk).oversized = true)) := by
  constructor
  · exact (page_chunker_contract [(2, "bb"), (1, "aa")] 50).1.trans (by decide)
  · exact ((page_chunker_contract [(2, "bb"), (1, "aa")] 50).2.2.2
      ⟨"--- PAGE 1 ---\n\naa\n\n--- PAGE 2 ---\n\nbb", [1, 2], 0, 40, false⟩ (by decide)).1

theorem foldl_ite_append {α : Type} (p : α → Prop) [DecidablePred p] (l : List α) :
    ∀ acc : List α,
      l.foldl (fun acc x => if p x then acc ++ [x] else acc) acc
        = acc ++ l.filter (fun x => decide (p x)) := by
  induction l with
  | nil => intro acc; simp
  | cons x t ih =>
    intro acc
    simp only [List.foldl_cons, List.filter_cons]
    by_cases h : p x
    · rw [if_pos h, ih (acc ++ [x]), decide_eq_true h]
      simp
    · rw [if_neg h, ih acc, decide_eq_false h]
      simp

theorem foldl_ite_append_pages (f : PageData → List String) (l : List PageData) :
    ∀ acc : List (List String),
      l.foldl (fun acc p => if f p ≠ [] then acc ++ [f p] else acc) acc
        = acc ++ l.filterMap (fun p => if f p = [] then Option.none else some (f p)) := by
  induction l with
  | nil => intro acc; simp
  | cons x t ih =>
    intro acc
    simp only [List.foldl_cons, List.filterMap_cons]
    by_cases h : f x = []
    · rw [if_neg (by simp [h]), if_pos h, ih acc]
    · rw [if_pos h, if_neg h, ih (acc ++ [f x])]
      simp

/-- C4 counterexample: with start marker `"X"` and the page range `[1, 2]`,
page 2 (the last kept page, not the first) is also trimmed at the start
marker: the code applies the marker trimming to every kept page containing
the marker, so page 2 yields `["Xd"]` where the claim (trimming only the
first kept page) would yield the full page `["c Xd"]`. -/
theorem pdf_marker_claim_counterexample :
    (extract_pdf_with_boundaries
        [⟨1, "aX b"⟩, ⟨2, "c Xd"⟩]
        ⟨1, 2, some "X", Option.none, [], Option.none, "medium", []⟩).relevant_data
      = [["X b"], ["Xd"]]
    ∧ strippedLines ("c Xd".toList) = ["c Xd"]
    ∧ (["Xd"] : List String) ≠ ["c Xd"] := by
  refine ⟨?_, by decide, by decide⟩
  decide

/-- C4 amended (PDF marker trimming): the extractor's `relevant_data` is
exactly the pages of the inclusive `[start_page, end_page]` range, in order,
each processed by the marker trimming (applied to every kept page where the
marker occurs, not only the first/last) and then reduced to its non-empty
stripped lines, with pages left without content omitted; `total_pages`
counts the kept pages; and on any page text where neither marker occurs the
processing keeps the page in full (all its non-empty stripped lines). -/
theorem pdf_precision_marker_trimming (page_data : List PageData)
    (cls : PDFRentRollClassification) :
    (extract_pdf_with_boundaries page_data cls).relevant_data
      = (page_data.filter
            (fun p => decide (cls.data_start_page ≤ p.page_number
              ∧ p.page_number ≤ cls.data_end_page))).filterMap
          (fun p =>
            if processPageText cls.data_start_marker cls.data_end_marker p.text = [] then
              Option.none
            else some (processPageText cls.data_start_marker cls.data_end_marker p.text))
    ∧ (extract_pdf_with_boundaries page_data cls).total_pages
      = (extract_pdf_with_boundaries page_data cls).relevant_data.length
    ∧ ∀ text : String,
        (∀ m, cls.data_start_marker = some m → m ≠ "" → findSub text.toList m.toList = Option.none) →
        (∀ m, cls.data_end_marker = some m → m ≠ "" → findSub text.toList m.toList = Option.none) →
        processPageText cls.data_start_marker cls.data_end_marker text
          = strippedLines text.toList := by
  refine ⟨?_, rfl, ?_⟩
  · unfold extract_pdf_with_boundaries
    dsimp only
    rw [foldl_ite_append (fun p => cls.data_start_page ≤ p.page_number
          ∧ p.page_number ≤ cls.data_end_page) page_data []]
    rw [foldl_ite_append_pages
          (fun p => processPageText cls.data_start_marker cls.data_end_marker p.text)]
    simp
  · intro text hs he
    unfold processPageText applyMarkers
    have h1 : (match cls.data_start_marker with
        | some m =>
          if m ≠ "" then
            match findSub text.toList m.toList with
            | some i => text.toList.drop i
            | Option.none => text.toList
          else text.toList
        | Option.none => text.toList) = text.toList := by
      cases hm : cls.data_start_marker with
      | none => rfl
      | some m =>
        by_cases hne : m ≠ ""
        · simp only [if_pos hne, hs m hm hne]
        · simp only [if_neg hne]
    rw [h1]
    cases hm : cls.data_end_marker with
    | none => rfl
    | some m =>
      by_cases hne : m ≠ ""
      · simp only [if_pos hne, he m hm hne]
      · simp only [if_neg hne]

theorem pdf_precision_marker_trimming_witness :
    (extract_pdf_with_boundaries [⟨1, " a \nb"⟩]
        ⟨1, 1, Option.none, Option.none, [], Option.none, "medium", []⟩).relevant_data
      = [["a", "b"]]
    ∧ processPageText Option.none Option.none "c" = ["c"] := by
  constructor
  · exact ((pdf_precision_marker_trimming [⟨1, " a \nb"⟩]
      ⟨1, 1, Option.none, Option.none, [], Option.none, "medium", []⟩).1).trans (by decide)
  · exact ((pdf_precision_marker_trimming []
      ⟨1, 1, Option.none, Option.none, [], Option.none, "medium", []⟩).2.2 "c"
      (by intro m hm _; cases hm) (by intro m hm _; cases hm)).trans (by decide)

theorem pySlice_clamped {α : Type} (data : List α) (s e : Int) (he : 0 ≤ e) :
    pySlice data (if s - 1 < 0 then 0 else s - 1)
        (if ((data.length : Int)) < e then ((data.length : Int)) else e)
      = inclusiveRangeRows data (max s 1) (min e (data.length : Int)) := by
  have hn0 : (0:Int) ≤ (data.length : Int) := Int.ofNat_nonneg _
  have hI0 : (0:Int) ≤ (if s - 1 < 0 then (0:Int) else s - 1) := by
    by_cases hc : s - 1 < 0
    · rw [if_pos hc]
    · rw [if_neg hc]; omega
  have hJ0 : (0:Int) ≤ (if (data.length : Int) < e then (data.length : Int) else e) := by
    by_cases hc : (data.length : Int) < e
    · rw [if_pos hc]; exact hn0
    · rw [if_neg hc]; exact he
  have hJn : (if (data.length : Int) < e then (data.length : Int) else e) ≤ (data.length : Int) := by
    by_cases hc : (data.length : Int) < e
    · rw [if_pos hc]
    · rw [if_neg hc]; omega
  have hJmin : (if (data.length : Int) < e then (data.length : Int) else e)
      = min e (data.length : Int) := by
    by_cases hc : (data.length : Int) < e
    · rw [if_pos hc, min_eq_right (le_of_lt hc)]
    · rw [if_neg hc, min_eq_left (by omega)]
  unfold pySlice inclusiveRangeRows
  dsimp only
  rw [if_neg (not_lt.mpr hI0), if_neg (not_lt.mpr hJ0)]
  rw [min_eq_left hJn, hJmin]
  by_cases hs : s ≤ 1
  · have hI : (if s - 1 < 0 then (0:Int) else s - 1) = 0 := by
      by_cases hc : s - 1 < 0
      · rw [if_pos hc]
      · rw [if_neg hc]; omega
    rw [hI, min_eq_left hn0, max_eq_right hs]
    simp
  · push_neg at hs
    have hI : (if s - 1 < 0 then (0:Int) else s - 1) = s - 1 := by
      rw [if_neg (by omega)]
    rw [hI, max_eq_left (by omega)]
    by_cases hsn : s - 1 ≤ (data.length : Int)
    · rw [min_eq_left hsn]
      congr 1
      omega
    · rw [min_eq_right (by omega)]
      have hlen : (data.take (min e (data.length : Int)).toNat).length ≤ data.length := by
        rw [List.length_take]
        exact min_le_right _ _
      have h1 : (data.take (min e (data.length : Int)).toNat).drop ((data.length : Int)).toNat
          = [] := by
        refine List.drop_eq_nil_of_le ?_
        simp
      have h2 : (data.take (min e (data.length : Int)).toNat).drop ((s).toNat - 1) = [] := by
        refine List.drop_eq_nil_of_le ?_
        omega
      rw [h1, h2]

/-- C5 counterexample: a sheet with 3 rows, `data_start_row = 1`,
`data_end_row = -1`.  The claim's clamping (end rows exceeding the count
clamp to the count, otherwise unchanged) makes the inclusive range `[1, -1]`
empty, but the code hands the negative end row to Python slicing, which
counts from the sheet's end and returns the first two rows. -/
theorem excel_boundary_clamp_counterexample :
    (extract_excel_with_boundaries
        [⟨"Sheet1", [[PyVal.str "a"], [PyVal.str "b"], [PyVal.str "c"]], 3, 1⟩]
        ⟨"Sheet1", 1, -1, Option.none, Option.none, [], Option.none, "medium", []⟩).map
          (fun ex => ex.sheets.map SheetInfo.data)
      = Except.ok [[[PyVal.str "a"], [PyVal.str "b"]]]
    ∧ inclusiveRangeRows [[PyVal.str "a"], [PyVal.str "b"], [PyVal.str "c"]]
        (max (1:Int) 1) (min (-1:Int) 3) = ([] : List (List PyVal)) := by
  constructor
  · rfl
  · rfl

/-- C5 amended (boundary clamp): when the target sheet exists and the
classification's `data_end_row` is non-negative, the extraction returns
(without raising) exactly the rows of the clamped inclusive range
`[max(data_start_row, 1), min(data_end_row, n)]`; a negative `data_end_row`
is instead interpreted by Python slicing as counting from the sheet's end
(see the counterexample). -/
theorem excel_boundary_clamp (sheets : List SheetInfo) (cls : ExcelRentRollClassification)
    (target : SheetInfo)
    (hfind : sheets.find? (fun s => s.sheet_name == cls.data_sheet_name) = some target)
    (hend : 0 ≤ cls.data_end_row) :
    (extract_excel_with_boundaries sheets cls).map (fun ex => ex.sheets.map SheetInfo.data)
      = Except.ok [inclusiveRangeRows target.data (max cls.data_start_row 1)
          (min cls.data_end_row (target.data.length : Int))] := by
  unfold extract_excel_with_boundaries
  rw [hfind]
  dsimp only [Except.map]
  rw [pySlice_clamped target.data cls.data_start_row cls.data_end_row hend]
  rfl

theorem excel_boundary_clamp_witness :
    (extract_excel_with_boundaries
        [⟨"S", [[PyVal.str "a"], [PyVal.str "b"], [PyVal.str "c"]], 3, 1⟩]
        ⟨"S", 2, 99, Option.none, Option.none, [], Option.none, "medium", []⟩).map
          (fun ex => ex.sheets.map SheetInfo.data)
      = Except.ok [[[PyVal.str "b"], [PyVal.str "c"]]] := by
  have h := excel_boundary_clamp
      [⟨"S", [[PyVal.str "a"], [PyVal.str "b"], [PyVal.str "c"]], 3, 1⟩]
      ⟨"S", 2, 99, Option.none, Option.none, [], Option.none, "medium", []⟩
      ⟨"S", [[PyVal.str "a"], [PyVal.str "b"], [PyVal.str "c"]], 3, 1⟩
      (by rfl) (by decide)
  exact h.trans (by rfl)

/-- C9 (missing sheet raises): the Excel precision extraction raises
(`ValueError`, embedded as `Except.error` with the sheet-not-found message)
exactly when no sheet's name equals the classification's `data_sheet_name`;
when a matching sheet exists it returns a result instead, so the missing
sheet is the only raising failure mode. -/
theorem excel_missing_sheet_raises (sheets : List SheetInfo)
    (cls : ExcelRentRollClassification) :
    ((∀ s ∈ sheets, s.sheet_name ≠ cls.data_sheet_name) →
        extract_excel_with_boundaries sheets cls
          = Except.error ("Sheet '" ++ cls.data_sheet_name ++ "' not found in extracted data"))
    ∧ ((∃ s ∈ sheets, s.sheet_name = cls.data_sheet_name) →
        ∃ ex, extract_excel_with_boundaries sheets cls = Except.ok ex) := by
  constructor
  · intro h
    have hf : sheets.find? (fun s => s.sheet_name == cls.data_sheet_name) = Option.none := by
      rw [List.find?_eq_none]
      intro s hs
      simp only [beq_iff_eq]
      exact h s hs
    unfold extract_excel_with_boundaries
    rw [hf]
  · intro h
    have hf : (sheets.find? (fun s => s.sheet_name == cls.data_sheet_name)).isSome := by
      rw [List.find?_isSome]
      obtain ⟨s, hs, heq⟩ := h
      exact ⟨s, hs, by simp [beq_iff_eq, heq]⟩
    obtain ⟨target, ht⟩ := Option.isSome_iff_exists.mp hf
    unfold extract_excel_with_boundaries
    rw [ht]
    exact ⟨_, rfl⟩

theorem excel_missing_sheet_raises_witness :
    extract_excel_with_boundaries []
        ⟨"S", 1, 1, Option.none, Option.none, [], Option.none, "medium", []⟩
      = Except.error "Sheet 'S' not found in extracted data"
    ∧ (extract_excel_with_boundaries [⟨"S", [], 0, 0⟩]
        ⟨"S", 1, 1, Option.none, Option.none, [], Option.none, "medium", []⟩).toOption.isSome
      = true := by
  constructor
  · exact (excel_missing_sheet_raises []
      ⟨"S", 1, 1, Option.none, Option.none, [], Option.none, "medium", []⟩).1
      (by intro s hs; cases hs)
  · obtain ⟨ex, hex⟩ := (excel_missing_sheet_raises [⟨"S", [], 0, 0⟩]
      ⟨"S", 1, 1, Option.none, Option.none, [], Option.none, "medium", []⟩).2
      ⟨⟨"S", [], 0, 0⟩, by simp, rfl⟩
    rw [hex]
    rfl

theorem clearCell_preserves_formula (ws : Worksheet) (r c r2 c2 : Nat)
    (h : startsWithEq (ws r2 c2) = true) :
    clearCell ws r c r2 c2 = ws r2 c2 := by
  unfold clearCell setCell
  by_cases hc : ws r c ≠ PyVal.none ∧ startsWithEq (ws r c) = false
  · rw [if_pos hc]
    by_cases hp : r2 = r ∧ c2 = c
    · obtain ⟨hr, hcc⟩ := hp
      subst hr
      subst hcc
      rw [hc.2] at h
      exact absurd h (by simp)
    · rw [if_neg hp]
  · rw [if_neg hc]

theorem clearColsFold_preserves_formula (r r2 c2 : Nat) (cols : List Nat) :
    ∀ ws : Worksheet, startsWithEq (ws r2 c2) = true →
      (cols.foldl (fun w2 c => clearCell w2 r c) ws) r2 c2 = ws r2 c2 := by
  induction cols with
  | nil => intro ws _; rfl
  | cons c t ih =>
    intro ws h
    simp only [List.foldl_cons]
    have hstep : clearCell ws r c r2 c2 = ws r2 c2 := clearCell_preserves_formula ws r c r2 c2 h
    have h2 : startsWithEq (clearCell ws r c r2 c2) = true := by rw [hstep]; exact h
    rw [ih (clearCell ws r c) h2, hstep]

theorem clearRowsFold_preserves_formula (sc ec r2 c2 : Nat) (rows : List Nat) :
    ∀ ws : Worksheet, startsWithEq (ws r2 c2) = true →
      (rows.foldl (fun w r => (pyRangeIncl sc ec).foldl (fun w2 c => clearCell w2 r c) w) ws) r2 c2
        = ws r2 c2 := by
  induction rows with
  | nil => intro ws _; rfl
  | cons r t ih =>
    intro ws h
    simp only [List.foldl_cons]
    have hstep := clearColsFold_preserves_formula r r2 c2 (pyRangeIncl sc ec) ws h
    have h2 : startsWithEq (((pyRangeIncl sc ec).foldl (fun w2 c => clearCell w2 r c) ws) r2 c2)
        = true := by rw [hstep]; exact h
    rw [ih _ h2, hstep]

theorem writeColsFold_untouched (cfg : TabularMapping) (row : List (String × PyVal))
    (rr r2 c2 : Nat)
    (h : ∀ fc ∈ cfg.columns, fc.2 ≠ "" → rowHasKey row fc.1 = true →
      ¬(r2 = rr ∧ c2 = column_index_from_string fc.2)) :
    ∀ (cols : List (String × String)) (w : Worksheet),
      (∀ fc ∈ cols, fc ∈ cfg.columns) →
      (cols.foldl
        (fun w2 fc =>
          if fc.2 ≠ "" ∧ rowHasKey row fc.1 = true then
            setCell w2 rr (column_index_from_string fc.2) (rowGet row fc.1)
          else w2)
        w) r2 c2 = w r2 c2 := by
  intro cols
  induction cols with
  | nil => intro w _; rfl
  | cons fc t ih =>
    intro w hsub
    simp only [List.foldl_cons]
    have hmem : fc ∈ cfg.columns := hsub fc (by simp)
    have hsub2 : ∀ x ∈ t, x ∈ cfg.columns := fun x hx => hsub x (by simp [hx])
    by_cases hcond : fc.2 ≠ "" ∧ rowHasKey row fc.1 = true
    · rw [if_pos hcond]
      rw [ih _ hsub2]
      unfold setCell
      rw [if_neg (h fc hmem hcond.1 hcond.2)]
    · rw [if_neg hcond]
      exact ih w hsub2

theorem writeRowsFold_untouched (cfg : TabularMapping) (r2 c2 : Nat)
    (rows : List (Nat × List (String × PyVal)))
    (h : ∀ p ∈ rows, ∀ fc ∈ cfg.columns, fc.2 ≠ "" → rowHasKey p.2 fc.1 = true →
      ¬(r2 = cfg.data_start_row + p.1 ∧ c2 = column_index_from_string fc.2)) :
    ∀ w : Worksheet,
      (rows.foldl
        (fun w p =>
          cfg.columns.foldl
            (fun w2 fc =>
              if fc.2 ≠ "" ∧ rowHasKey p.2 fc.1 = true then
                setCell w2 (cfg.data_start_row + p.1) (column_index_from_string fc.2)
                  (rowGet p.2 fc.1)
              else w2)
            w)
        w) r2 c2 = w r2 c2 := by
  induction rows with
  | nil => intro w; rfl
  | cons p t ih =>
    intro w
    simp only [List.foldl_cons]
    have hp := h p (by simp)
    have ht : ∀ q ∈ t, ∀ fc ∈ cfg.columns, fc.2 ≠ "" → rowHasKey q.2 fc.1 = true →
        ¬(r2 = cfg.data_start_row + q.1 ∧ c2 = column_index_from_string fc.2) :=
      fun q hq => h q (by simp [hq])
    rw [ih ht]
    exact writeColsFold_untouched cfg p.2 (cfg.data_start_row + p.1) r2 c2 hp
      cfg.columns w (fun fc hfc => hfc)

/-- C3 counterexample: the template holds the formula `"=SUM(A2)"` at row 1,
column A; writing one record whose field `"a"` is mapped to column A at
`data_start_row = 1` overwrites the formula cell with the record's value.
The clearing phase skips formula cells, but the writing phase writes
unconditionally. -/
theorem write_formula_claim_counterexample :
    write_data_with_mapping wsFormulaAt11 [[("a", PyVal.int 5)]] ⟨[("a", "A")], 1⟩ 1 1
      = PyVal.int 5
    ∧ startsWithEq (wsFormulaAt11 1 1) = true
    ∧ PyVal.int 5 ≠ wsFormulaAt11 1 1 := by
  refine ⟨by decide, by decide, by decide⟩

/-- C3 amended (formula preservation): `clear_data_rows` never changes a
cell whose value starts with `'='`, and `write_data_with_mapping` leaves
every formula cell unchanged unless it is a target of the writing phase (a
mapped non-empty column letter, at row `data_start_row + i` for a record `i`
that carries the mapped field) — a formula occupying such a target cell is
overwritten with the record's value. -/
theorem write_preserves_formulas :
    (∀ (ws : Worksheet) (sr er sc ec r c : Nat),
        startsWithEq (ws r c) = true →
        clear_data_rows ws sr er sc ec r c = ws r c)
    ∧ (∀ (ws : Worksheet) (data : List (List (String × PyVal)))
        (cfg : TabularMapping) (r c : Nat),
        startsWithEq (ws r c) = true →
        isWriteTarget data cfg r c = false →
        write_data_with_mapping ws data cfg r c = ws r c) := by
  constructor
  · intro ws sr er sc ec r c h
    exact clearRowsFold_preserves_formula sc ec r c (pyRangeIncl sr er) ws h
  · intro ws data cfg r c h htarget
    unfold write_data_with_mapping
    dsimp only
    have hclear : ∀ w : Worksheet, startsWithEq (w r c) = true →
        (if data ≠ [] then
          (if ((cfg.columns.map Prod.snd).filter (fun c => c ≠ "")) ≠ [] then
            clear_data_rows w cfg.data_start_row (cfg.data_start_row + data.length + 10)
              (natListMin (((cfg.columns.map Prod.snd).filter (fun c => c ≠ "")).map column_index_from_string))
              (natListMax (((cfg.columns.map Prod.snd).filter (fun c => c ≠ "")).map column_index_from_string))
          else w)
        else w) r c = w r c := by
      intro w hw
      by_cases hd : data ≠ []
      · rw [if_pos hd]
        by_cases hcl : ((cfg.columns.map Prod.snd).filter (fun c => c ≠ "")) ≠ []
        · rw [if_pos hcl]
          exact clearRowsFold_preserves_formula _ _ r c _ w hw
        · rw [if_neg hcl]
      · rw [if_neg hd]
    have hrows : ∀ p ∈ data.enum, ∀ fc ∈ cfg.columns, fc.2 ≠ "" → rowHasKey p.2 fc.1 = true →
        ¬(r = cfg.data_start_row + p.1 ∧ c = column_index_from_string fc.2) := by
      intro p hp fc hfc hne hkey hcontra
      have hfalse := Bool.eq_false_iff.mpr ((List.any_eq_false.mp htarget) p hp)
      rw [Bool.and_eq_false_iff] at hfalse
      rcases hfalse with hfalse | hfalse
      · rw [beq_eq_false_iff_ne] at hfalse
        exact hfalse hcontra.1
      · have hfc2 := Bool.eq_false_iff.mpr ((List.any_eq_false.mp hfalse) fc hfc)
        rw [Bool.and_eq_false_iff, Bool.and_eq_false_iff] at hfc2
        rcases hfc2 with (hfc2 | hfc2) | hfc2
        · rw [Bool.not_eq_false', beq_iff_eq] at hfc2
          exact hne hfc2
        · rw [hkey] at hfc2
          exact absurd hfc2 (by simp)
        · rw [beq_eq_false_iff_ne] at hfc2
          exact hfc2 hcontra.2
    rw [writeRowsFold_untouched cfg r c data.enum hrows]
    exact hclear ws h

theorem write_preserves_formulas_witness :
    clear_data_rows wsFormulaAt11 1 12 1 1 1 1 = PyVal.str "=SUM(A2)"
    ∧ write_data_with_mapping wsFormulaAt11 [[("b", PyVal.int 5)]] ⟨[("b", "B")], 1⟩ 1 1
      = PyVal.str "=SUM(A2)" := by
  constructor
  · exact (write_preserves_formulas.1 wsFormulaAt11 1 12 1 1 1 1 (by decide)).trans (by decide)
  · exact (write_preserves_formulas.2 wsFormulaAt11 [[("b", PyVal.int 5)]] ⟨[("b", "B")], 1⟩ 1 1
      (by decide) (by decide)).trans (by decide)

/-- C6 (two-pass boundary fallback): for a supported file type and non-blank
text, whenever pass 1 parses to a result `R`, a pass-2 failure — the
validation step raising (`Except.error`), its response containing no
brace-delimited JSON, or the JSON not parsing, all of which make
`validate_boundaries` return `None` — leaves the analysis building its final
classification from `R` itself (`build_classification file_type R`), rather
than failing the operation; whereas a pass-1 parse failure (no JSON span, or
`json.loads` failing on it) makes the whole analysis return `None` with no
fallback. -/
theorem two_pass_boundary_fallback
    (json_loads : String → Option (List (String × JVal)))
    (file_type text pass1_response : String) (pass2 : Except String String)
    (hft : pyLower file_type = "pdf" ∨ pyLower file_type = "excel")
    (htext : pyStrip text ≠ "") :
    (∀ js R, nonGreedyBrace pass1_response.toList = some js →
        json_loads js.asString = some R →
        validate_boundaries json_loads pass2 = Option.none →
        analyze_rent_roll_boundaries json_loads file_type text pass1_response pass2
          = build_classification file_type R)
    ∧ (∀ e, pass2 = Except.error e → validate_boundaries json_loads pass2 = Option.none)
    ∧ (∀ resp, pass2 = Except.ok resp → greedyBrace resp.toList = Option.none →
        validate_boundaries json_loads pass2 = Option.none)
    ∧ (∀ resp js, pass2 = Except.ok resp → greedyBrace resp.toList = some js →
        json_loads js.asString = Option.none →
        validate_boundaries json_loads pass2 = Option.none)
    ∧ (nonGreedyBrace pass1_response.toList = Option.none →
        analyze_rent_roll_boundaries json_loads file_type text pass1_response pass2
          = Option.none)
    ∧ (∀ js, nonGreedyBrace pass1_response.toList = some js →
        json_loads js.asString = Option.none →
        analyze_rent_roll_boundaries json_loads file_type text pass1_response pass2
          = Option.none) := by
  refine ⟨?_, ?_, ?_, ?_, ?_, ?_⟩
  · intro js R hjs hR hval
    unfold analyze_rent_roll_boundaries
    rw [if_neg (not_not_intro hft), if_neg htext, hjs]
    dsimp only
    rw [hR]
    dsimp only
    rw [hval]
  · intro e he
    rw [he]
    rfl
  · intro resp he hg
    rw [he]
    unfold validate_boundaries
    dsimp only
    rw [hg]
  · intro resp js he hg hl
    rw [he]
    unfold validate_boundaries
    dsimp only
    rw [hg]
    dsimp only
    rw [hl]
  · intro hjs
    unfold analyze_rent_roll_boundaries
    rw [if_neg (not_not_intro hft), if_neg htext, hjs]
  · intro js hjs hl
    unfold analyze_rent_roll_boundaries
    rw [if_neg (not_not_intro hft), if_neg htext, hjs]
    dsimp only
    rw [hl]

theorem two_pass_boundary_fallback_witness :
    analyze_rent_roll_boundaries loadsEmptyObj "pdf" "x" "\x7b\x7d" (Except.error "llm failure")
      = build_classification "pdf" []
    ∧ validate_boundaries loadsEmptyObj (Except.error "llm failure") = Option.none
    ∧ analyze_rent_roll_boundaries loadsEmptyObj "pdf" "x" "no json" (Except.error "llm failure")
      = Option.none := by
  refine ⟨?_, ?_, ?_⟩
  · exact (two_pass_boundary_fallback loadsEmptyObj "pdf" "x" "\x7b\x7d"
      (Except.error "llm failure") (Or.inl (by decide)) (by decide)).1
      ['\x7b', '\x7d'] [] (by decide) (by decide) (by decide)
  · exact (two_pass_boundary_fallback loadsEmptyObj "pdf" "x" "\x7b\x7d"
      (Except.error "llm failure") (Or.inl (by decide)) (by decide)).2.1
      "llm failure" rfl
  · exact (two_pass_boundary_fallback loadsEmptyObj "pdf" "x" "no json"
      (Except.error "llm failure") (Or.inl (by decide)) (by decide)).2.2.2.2.1 (by decide)
